import Mathlib

/-!
Shallow embedding of the sleep-analytics engine (`SleepAnalytics` class of the
repository) and verification of the specification's claims about it.

Modelling conventions:
* A calendar date `YYYY-MM-DD` is represented by its epoch-day number
  (`ℤ`, days since 1970-01-01, which was a Thursday).  The source parses a
  date to a millisecond timestamp `new Date(d).getTime()`, which equals
  `epochDay * 86400000`.
* JavaScript numbers are modelled by `ℚ`.  `Math.round` is `⌊q + 1/2⌋`
  (round half toward +∞), matching JavaScript on finite inputs.
* `Math.sqrt` has no exact rational counterpart; the functions that use it
  take an explicit parameter `msqrt : ℚ → ℚ`.  Theorems assume only what
  IEEE sqrt guarantees on the inputs involved: a nonnegative result on
  nonnegative input.
* String interpolation of numbers (`${x}` and `x.toFixed(1)`) is modelled by
  explicit formatting parameters `fmt f1 : ℚ → String`; no claim inspects
  the formatted text.
* The one place where the source can produce `NaN`
  (`analyzePatterns`: `validAverages.reduce(...) / validAverages.length`
  with an empty `validAverages`) is modelled by an `Option ℚ` result,
  `none` standing for `NaN`.
* Only the two fields of a sleep entry that the analytics engine reads
  (`date` and `rating`) are modelled; `id`, `comments`, `start_time`,
  `end_time`, ... are never consulted by the engine.
-/

namespace SleepAnalytics

/-- A sleep entry as consumed by the analytics engine: the calendar date
(epoch-day number) and the quality rating. -/
structure SleepEntry where
  date : ℤ
  rating : ℚ
deriving DecidableEq, Repr

/-- Trend direction labels. -/
inductive Trend where
  | improving
  | declining
  | stable
deriving DecidableEq, Repr

/-- Trend strength labels. -/
inductive Strength where
  | weak
  | moderate
  | strong
deriving DecidableEq, Repr

/-- Insight type labels. -/
inductive InsightType where
  | positive
  | warning
  | info
deriving DecidableEq, Repr

/-- Streak classification of a single entry. -/
inductive StreakType where
  | good
  | bad
  | neutral
deriving DecidableEq, Repr

/-- Result of `calculateStatistics`. -/
structure SleepStatistics where
  average : ℚ
  highest : ℚ
  lowest : ℚ
  total : ℕ
  trend : Trend
  consistency : ℚ
deriving DecidableEq, Repr

/-- Result of `analyzeTrend`. -/
structure SleepTrend where
  direction : Trend
  strength : Strength
  percentage : ℚ
  description : String
deriving DecidableEq, Repr

/-- Result of `analyzePatterns`.  `consistencyScore = none` models the `NaN`
the source produces when no weekday has a positive average. -/
structure SleepPattern where
  weekdayAverage : ℚ
  weekendAverage : ℚ
  bestDay : String
  worstDay : String
  consistencyScore : Option ℚ
  patterns : List (String × ℚ)
deriving DecidableEq, Repr

/-- One generated insight record. -/
structure SleepInsight where
  type : InsightType
  title : String
  description : String
  actionable : Bool
  recommendation : Option String
deriving DecidableEq, Repr

/-- Result of `calculateStreaks`. -/
structure StreakResult where
  current : ℕ
  longest : ℕ
  type : StreakType
deriving DecidableEq, Repr

/-- Result of `comparePeriods`. -/
structure PeriodComparison where
  thisWeek : ℚ
  lastWeek : ℚ
  thisMonth : ℚ
  lastMonth : ℚ
deriving DecidableEq, Repr

/-- JavaScript `Math.round`: round half toward positive infinity. -/
def jsRound (q : ℚ) : ℤ := ⌊q + 1/2⌋

/-- `Math.round(q * 100) / 100`: round to two decimal places. -/
def round2 (q : ℚ) : ℚ := (jsRound (q * 100) : ℚ) / 100

/-- `Math.round(q * 10) / 10`: round to one decimal place. -/
def round1 (q : ℚ) : ℚ := (jsRound (q * 10) : ℚ) / 10

/-- Insert an entry into a list sorted ascending by date (models the
comparator `new Date(a.date).getTime() - new Date(b.date).getTime()`). -/
def insertAsc (e : SleepEntry) : List SleepEntry → List SleepEntry
  | [] => [e]
  | a :: as => if e.date ≤ a.date then e :: a :: as else a :: insertAsc e as

/-- Sort entries ascending by date. -/
def sortAscByDate : List SleepEntry → List SleepEntry
  | [] => []
  | a :: as => insertAsc a (sortAscByDate as)

/-- Insert an entry into a list sorted descending by date (models the
comparator `new Date(b.date).getTime() - new Date(a.date).getTime()`). -/
def insertDesc (e : SleepEntry) : List SleepEntry → List SleepEntry
  | [] => [e]
  | a :: as => if a.date ≤ e.date then e :: a :: as else a :: insertDesc e as

/-- Sort entries descending by date. -/
def sortDescByDate : List SleepEntry → List SleepEntry
  | [] => []
  | a :: as => insertDesc a (sortDescByDate as)

/-- The localized day names, indexed by `Date.getDay()` (Sunday = 0). -/
def dayNames : List String :=
  ["Domingo", "Lunes", "Martes", "Miércoles", "Jueves", "Viernes", "Sábado"]

/-- `new Date(date + 'T00:00:00').getDay()`: the weekday of a calendar date,
Sunday = 0.  Epoch day 0 (1970-01-01) was a Thursday (= 4). -/
def dayOfWeek (d : ℤ) : ℕ := ((d + 4) % 7).toNat

/-- `dayNames[date.getDay()]`. -/
def dayName (d : ℤ) : String := dayNames.getD (dayOfWeek d) ""

/-- The entries falling on a given weekday name (the per-day accumulation
loop of `analyzePatterns`). -/
def dayEntries (entries : List SleepEntry) (d : String) : List SleepEntry :=
  entries.filter (fun e => dayName e.date = d)

/-- `dayTotals[day].count`. -/
def dayCount (entries : List SleepEntry) (d : String) : ℕ :=
  (dayEntries entries d).length

/-- `dayTotals[day].sum`. -/
def daySum (entries : List SleepEntry) (d : String) : ℚ :=
  ((dayEntries entries d).map (fun e => e.rating)).sum

/-- `dayData.sum / dayData.count`, the unrounded per-day average (only
meaningful when the day has entries). -/
def dayAvg (entries : List SleepEntry) (d : String) : ℚ :=
  daySum entries d / (dayCount entries d : ℚ)

/-- `patterns[day]`: the rounded per-day average, `0` for a day without
entries. -/
def patternVal (entries : List SleepEntry) (d : String) : ℚ :=
  if 0 < dayCount entries d then round2 (dayAvg entries d) else 0

/-- Ordinary-least-squares slope of `ys` against indices `0..n-1`, exactly as
computed by `calculateTrend` (`y[i] ?? 0` is `getD i 0`). -/
def regressionSlope (ys : List ℚ) : ℚ :=
  let n : ℚ := (ys.length : ℚ)
  let sumX : ℚ := ((List.range ys.length).map (fun (i : ℕ) => (i : ℚ))).sum
  let sumY : ℚ := ys.sum
  let sumXY : ℚ := ((List.range ys.length).map (fun (i : ℕ) => (i : ℚ) * ys.getD i 0)).sum
  let sumXX : ℚ := ((List.range ys.length).map (fun (i : ℕ) => (i : ℚ) * (i : ℚ))).sum
  (n * sumXY - sumX * sumY) / (n * sumXX - sumX * sumX)

/-- `SleepAnalytics.calculateTrend`: coarse three-bucket trend via the OLS
slope of ratings against entry index over the date-ascending order. -/
def calculateTrend (entries : List SleepEntry) : Trend :=
  if entries.length < 3 then .stable
  else
    let slope := regressionSlope ((sortAscByDate entries).map (fun e => e.rating))
    if 1/10 < slope then .improving
    else if slope < -(1/10) then .declining
    else .stable

/-- `SleepAnalytics.calculateStatistics`.  `msqrt` models `Math.sqrt`. -/
def calculateStatistics (msqrt : ℚ → ℚ) (entries : List SleepEntry) :
    SleepStatistics :=
  if entries.length = 0 then
    { average := 0, highest := 0, lowest := 0, total := 0,
      trend := .stable, consistency := 0 }
  else
    let ratings := entries.map (fun e => e.rating)
    let total := entries.length
    let sum := ratings.sum
    let average := sum / (total : ℚ)
    let highest := match ratings with | [] => 0 | r :: rs => rs.foldl max r
    let lowest := match ratings with | [] => 0 | r :: rs => rs.foldl min r
    let trend := calculateTrend entries
    let variance := ((ratings.map (fun r => (r - average) ^ 2)).sum) / (total : ℚ)
    let standardDeviation := msqrt variance
    let consistency := max 0 (1 - standardDeviation / 5)
    { average := round2 average, highest := highest, lowest := lowest,
      total := total, trend := trend, consistency := round2 consistency }

/-- `SleepAnalytics.analyzeTrend`: the detailed, user-facing trend.  `f1`
models `Number.prototype.toFixed(1)`. -/
def analyzeTrend (f1 : ℚ → String) (entries : List SleepEntry) : SleepTrend :=
  if entries.length < 7 then
    { direction := .stable, strength := .weak, percentage := 0,
      description := "Necesitas más datos para análisis de tendencias" }
  else
    let s := sortAscByDate entries
    let recentEntries := s.drop (s.length - 14)
    let earlierEntries := (s.take (s.length - 14)).drop (s.length - 28)
    if earlierEntries.length = 0 then
      { direction := .stable, strength := .weak, percentage := 0,
        description := "Datos insuficientes para comparación" }
    else
      let recentAvg := ((recentEntries.map (fun e => e.rating)).sum) / (recentEntries.length : ℚ)
      let earlierAvg := ((earlierEntries.map (fun e => e.rating)).sum) / (earlierEntries.length : ℚ)
      let change := recentAvg - earlierAvg
      let percentage := |change / earlierAvg| * 100
      if |change| < 3/10 then
        { direction := .stable, strength := .weak, percentage := round1 percentage,
          description := "Tu calidad de sueño se mantiene estable en " ++ f1 recentAvg ++ "/10" }
      else if 0 < change then
        { direction := .improving,
          strength := if 20 < percentage then .strong
                      else if 10 < percentage then .moderate else .weak,
          percentage := round1 percentage,
          description := "Tu sueño ha mejorado " ++ f1 percentage ++ "% en las últimas 2 semanas" }
      else
        { direction := .declining,
          strength := if 20 < percentage then .strong
                      else if 10 < percentage then .moderate else .weak,
          percentage := round1 percentage,
          description := "Tu sueño ha empeorado " ++ f1 percentage ++ "% en las últimas 2 semanas" }

/-- `analyzeTrend` invoked at a given instant `now`.  The source function
reads no clock, so the result does not depend on `now`; this wrapper makes
that dependence (or its absence) expressible. -/
def analyzeTrendAt (f1 : ℚ → String) (_now : ℤ) (entries : List SleepEntry) :
    SleepTrend :=
  analyzeTrend f1 entries

/-- The weekday name set of `analyzePatterns`. -/
def weekdays : List String := ["Lunes", "Martes", "Miércoles", "Jueves", "Viernes"]

/-- The weekend name set of `analyzePatterns`. -/
def weekends : List String := ["Sábado", "Domingo"]

/-- State of the best-day/worst-day selection loop of `analyzePatterns`. -/
structure BWState where
  bestDay : String
  worstDay : String
  bestAvg : ℚ
  worstAvg : ℚ
deriving DecidableEq, Repr

/-- One iteration of the best/worst selection over a day name. -/
def bwStep (entries : List SleepEntry) (st : BWState) (d : String) : BWState :=
  if 0 < dayCount entries d then
    let avg := dayAvg entries d
    let st1 := if st.bestAvg < avg then { st with bestDay := d, bestAvg := avg } else st
    if avg < st1.worstAvg then { st1 with worstDay := d, worstAvg := avg } else st1
  else st

/-- The best/worst selection loop (`bestAvg` starts at `0`, `worstAvg` at
`10`, iterating `dayNames` in order). -/
def bwFold (entries : List SleepEntry) : BWState :=
  dayNames.foldl (bwStep entries) ⟨"", "", 0, 10⟩

/-- `SleepAnalytics.analyzePatterns`. -/
def analyzePatterns (msqrt : ℚ → ℚ) (entries : List SleepEntry) : SleepPattern :=
  let patterns := dayNames.map (fun d => (d, patternVal entries d))
  let bw := bwFold entries
  let weekdayRatings :=
    (entries.filter (fun e => weekdays.contains (dayName e.date))).map (fun e => e.rating)
  let weekendRatings :=
    (entries.filter (fun e =>
      !(weekdays.contains (dayName e.date)) && weekends.contains (dayName e.date))).map
      (fun e => e.rating)
  let weekdayAverage :=
    if 0 < weekdayRatings.length then weekdayRatings.sum / (weekdayRatings.length : ℚ) else 0
  let weekendAverage :=
    if 0 < weekendRatings.length then weekendRatings.sum / (weekendRatings.length : ℚ) else 0
  let validAverages := (patterns.map (fun p => p.2)).filter (fun v => 0 < v)
  let consistencyScore : Option ℚ :=
    if validAverages.length = 0 then none
    else
      let avgOfAverages := validAverages.sum / (validAverages.length : ℚ)
      let variance :=
        ((validAverages.map (fun a => (a - avgOfAverages) ^ 2)).sum) / (validAverages.length : ℚ)
      some (round2 (max 0 (1 - msqrt variance / 5)))
  { weekdayAverage := round2 weekdayAverage,
    weekendAverage := round2 weekendAverage,
    bestDay := if bw.bestDay = "" then "N/A" else bw.bestDay,
    worstDay := if bw.worstDay = "" then "N/A" else bw.worstDay,
    consistencyScore := consistencyScore,
    patterns := patterns }

/-- Rule 1 of `generateInsights`: average-quality tier (always fires). -/
def insightRule1 (fmt : ℚ → String) (overview : SleepStatistics) : List SleepInsight :=
  if 8 ≤ overview.average then
    [{ type := .positive, title := "Excelente calidad de sueño",
       description := "Tu promedio de " ++ fmt overview.average ++
         "/10 indica una excelente calidad de sueño.",
       actionable := false, recommendation := none }]
  else if 6 ≤ overview.average then
    [{ type := .info, title := "Calidad de sueño moderada",
       description := "Tu promedio de " ++ fmt overview.average ++
         "/10 es bueno, pero hay espacio para mejoras.",
       actionable := true,
       recommendation := some "Considera mantener una rutina de sueño más consistente" }]
  else
    [{ type := .warning, title := "Calidad de sueño preocupante",
       description := "Tu promedio de " ++ fmt overview.average ++
         "/10 indica problemas de sueño que necesitan atención.",
       actionable := true,
       recommendation := some "Considera consultar con un profesional de la salud" }]

/-- Rule 2 of `generateInsights`: non-weak trend. -/
def insightRule2 (trend : SleepTrend) : List SleepInsight :=
  if trend.direction = .improving ∧ trend.strength ≠ .weak then
    [{ type := .positive, title := "Tendencia positiva",
       description := trend.description, actionable := false, recommendation := none }]
  else if trend.direction = .declining ∧ trend.strength ≠ .weak then
    [{ type := .warning, title := "Tendencia preocupante",
       description := trend.description, actionable := true,
       recommendation := some "Revisa qué cambios recientes podrían estar afectando tu sueño" }]
  else []

/-- Rule 3 of `generateInsights`: consistency bands. -/
def insightRule3 (overview : SleepStatistics) : List SleepInsight :=
  if overview.consistency < 1/2 then
    [{ type := .warning, title := "Sueño inconsistente",
       description := "Tu calidad de sueño varía mucho día a día.",
       actionable := true,
       recommendation := some "Intenta mantener horarios regulares de sueño y rutinas nocturnas" }]
  else if 4/5 < overview.consistency then
    [{ type := .positive, title := "Sueño muy consistente",
       description := "Mantienes una calidad de sueño muy estable.",
       actionable := false, recommendation := none }]
  else []

/-- Rule 4 of `generateInsights`: weekday/weekend gap. -/
def insightRule4 (f1 : ℚ → String) (pattern : SleepPattern) : List SleepInsight :=
  let weekendDiff := |pattern.weekendAverage - pattern.weekdayAverage|
  if 3/2 < weekendDiff then
    if pattern.weekdayAverage < pattern.weekendAverage then
      [{ type := .info, title := "Mejor sueño en fines de semana",
         description := "Duermes " ++ f1 weekendDiff ++ " puntos mejor los fines de semana.",
         actionable := true,
         recommendation := some "Trata de aplicar tus rutinas de fin de semana a los días laborables" }]
    else
      [{ type := .warning, title := "Peor sueño en fines de semana",
         description := "Tu sueño empeora " ++ f1 weekendDiff ++ " puntos los fines de semana.",
         actionable := true,
         recommendation := some "Mantén horarios regulares incluso los fines de semana" }]
  else []

/-- Rule 5 of `generateInsights`: recent-week dip (over the last 7 entries of
the list in its original order). -/
def insightRule5 (entries : List SleepEntry) (overview : SleepStatistics) :
    List SleepInsight :=
  if 7 ≤ entries.length then
    let recentEntries := entries.drop (entries.length - 7)
    let recentAvg := ((recentEntries.map (fun e => e.rating)).sum) / (recentEntries.length : ℚ)
    if recentAvg < overview.average - 1 then
      [{ type := .warning, title := "Semana difícil",
         description := "Tu sueño esta semana ha sido peor que tu promedio general.",
         actionable := true,
         recommendation := some "Identifica qué factores podrían estar afectando tu sueño recientemente" }]
    else []
  else []

/-- `SleepAnalytics.generateInsights`: the five rules fire independently, in
order. -/
def generateInsights (fmt f1 : ℚ → String) (entries : List SleepEntry)
    (overview : SleepStatistics) (trend : SleepTrend) (pattern : SleepPattern) :
    List SleepInsight :=
  insightRule1 fmt overview ++ insightRule2 trend ++ insightRule3 overview ++
    insightRule4 f1 pattern ++ insightRule5 entries overview

/-- Classification of a rating for streak purposes. -/
def streakTypeOf (r : ℚ) : StreakType :=
  if 7 ≤ r then .good else if r ≤ 4 then .bad else .neutral

/-- The mutable state of the `calculateStreaks` loop. -/
structure StreakState where
  current : ℕ
  longest : ℕ
  temp : ℕ
  curType : StreakType
  tempType : StreakType
deriving DecidableEq, Repr

/-- One iteration of the `calculateStreaks` loop body at position `idx`. -/
def streakStep (st : StreakState) (idx : ℕ) (e : SleepEntry) : StreakState :=
  let t := streakTypeOf e.rating
  if idx = 0 then
    { current := 1, longest := st.longest, temp := 1, curType := t, tempType := t }
  else if t = st.tempType then
    let temp := st.temp + 1
    if idx < 30 then
      { current := temp, longest := st.longest, temp := temp,
        curType := st.tempType, tempType := st.tempType }
    else { st with temp := temp }
  else
    let longest := max st.longest st.temp
    if idx < 30 then
      { current := 1, longest := longest, temp := 1, curType := t, tempType := t }
    else
      { current := st.current, longest := longest, temp := 1,
        curType := st.curType, tempType := t }

/-- The `forEach` walk of `calculateStreaks`. -/
def streaksGo (st : StreakState) (idx : ℕ) : List SleepEntry → StreakState
  | [] => st
  | e :: rest => streaksGo (streakStep st idx e) (idx + 1) rest

/-- `SleepAnalytics.calculateStreaks`. -/
def calculateStreaks (entries : List SleepEntry) : StreakResult :=
  if entries.length = 0 then { current := 0, longest := 0, type := .neutral }
  else
    let sorted := sortDescByDate entries
    let fin := streaksGo ⟨0, 0, 0, .neutral, .neutral⟩ 0 sorted
    { current := fin.current, longest := max fin.longest fin.temp, type := fin.curType }

/-- Milliseconds per day; entry dates convert to timestamps by this factor. -/
def msPerDay : ℤ := 86400000

/-- Mean rating of a period's entries; an empty period reports `0`. -/
def periodAverage (l : List SleepEntry) : ℚ :=
  if l.length = 0 then 0 else ((l.map (fun e => e.rating)).sum) / (l.length : ℚ)

/-- Entries with `entryDate >= now - 7 days`. -/
def thisWeekEntries (now : ℤ) (entries : List SleepEntry) : List SleepEntry :=
  entries.filter (fun e => now - 7 * msPerDay ≤ e.date * msPerDay)

/-- Entries with `now - 14 days <= entryDate < now - 7 days`. -/
def lastWeekEntries (now : ℤ) (entries : List SleepEntry) : List SleepEntry :=
  entries.filter (fun e =>
    (now - 14 * msPerDay ≤ e.date * msPerDay) && (e.date * msPerDay < now - 7 * msPerDay))

/-- Entries with `entryDate >= now - 30 days`. -/
def thisMonthEntries (now : ℤ) (entries : List SleepEntry) : List SleepEntry :=
  entries.filter (fun e => now - 30 * msPerDay ≤ e.date * msPerDay)

/-- Entries with `now - 60 days <= entryDate < now - 30 days`. -/
def lastMonthEntries (now : ℤ) (entries : List SleepEntry) : List SleepEntry :=
  entries.filter (fun e =>
    (now - 60 * msPerDay ≤ e.date * msPerDay) && (e.date * msPerDay < now - 30 * msPerDay))

/-- `SleepAnalytics.comparePeriods`, with the wall-clock read `new Date()`
made an explicit parameter `now` (a millisecond timestamp). -/
def comparePeriods (now : ℤ) (entries : List SleepEntry) : PeriodComparison :=
  { thisWeek := round2 (periodAverage (thisWeekEntries now entries)),
    lastWeek := round2 (periodAverage (lastWeekEntries now entries)),
    thisMonth := round2 (periodAverage (thisMonthEntries now entries)),
    lastMonth := round2 (periodAverage (lastMonthEntries now entries)) }

/-- The nine-entry list of the spec's streak-counting test vector: nine
consecutive dates in ascending order with ratings `[8,8,8,3,3,9,9,9,9]`,
the most recent entry last. -/
def c1Entries : List SleepEntry :=
  [⟨0, 8⟩, ⟨1, 8⟩, ⟨2, 8⟩, ⟨3, 3⟩, ⟨4, 3⟩, ⟨5, 9⟩, ⟨6, 9⟩, ⟨7, 9⟩, ⟨8, 9⟩]

/-- The claim's characterisation of the best day: a weekday with entries whose
per-day average is highest among the weekdays with entries, earlier
weekdays with entries (in the fixed Sunday..Saturday order) having strictly
smaller averages. -/
def BestDaySpec (entries : List SleepEntry) (best : String) : Prop :=
  best ∈ dayNames ∧ 0 < dayCount entries best ∧
    (∀ d ∈ dayNames, 0 < dayCount entries d → dayAvg entries d ≤ dayAvg entries best) ∧
    (∀ d ∈ dayNames.takeWhile (fun x => x ≠ best),
      0 < dayCount entries d → dayAvg entries d < dayAvg entries best)

/-- The claim's characterisation of the worst day: a weekday with entries
whose per-day average is lowest among the weekdays with entries, earlier
weekdays with entries having strictly larger averages. -/
def WorstDaySpec (entries : List SleepEntry) (worst : String) : Prop :=
  worst ∈ dayNames ∧ 0 < dayCount entries worst ∧
    (∀ d ∈ dayNames, 0 < dayCount entries d → dayAvg entries worst ≤ dayAvg entries d) ∧
    (∀ d ∈ dayNames.takeWhile (fun x => x ≠ worst),
      0 < dayCount entries d → dayAvg entries worst < dayAvg entries d)

/-- Invariant of the best-day selection over an already-processed prefix `p`
of the day-name iteration: either no processed day with entries had a
positive average (state untouched), or the state holds the first processed
day attaining the maximum average. -/
def BestInv (ent : List SleepEntry) (p : List String) (st : BWState) : Prop :=
  (st.bestDay = "" ∧ st.bestAvg = 0 ∧ ∀ d ∈ p, 0 < dayCount ent d → dayAvg ent d ≤ 0)
  ∨ (st.bestDay ∈ p ∧ 0 < dayCount ent st.bestDay ∧ st.bestAvg = dayAvg ent st.bestDay ∧
     (∀ d ∈ p, 0 < dayCount ent d → dayAvg ent d ≤ st.bestAvg) ∧
     (∀ d ∈ p.takeWhile (fun x => x ≠ st.bestDay), 0 < dayCount ent d → dayAvg ent d < st.bestAvg))

/-- Invariant of the worst-day selection over a processed prefix `p`: either
every processed day with entries had average at least 10 (state untouched,
`worstAvg` still 10), or the state holds the first processed day attaining
the minimum average, which is then below 10. -/
def WorstInv (ent : List SleepEntry) (p : List String) (st : BWState) : Prop :=
  (st.worstDay = "" ∧ st.worstAvg = 10 ∧ ∀ d ∈ p, 0 < dayCount ent d → 10 ≤ dayAvg ent d)
  ∨ (st.worstDay ∈ p ∧ 0 < dayCount ent st.worstDay ∧ st.worstAvg = dayAvg ent st.worstDay ∧
     st.worstAvg < 10 ∧
     (∀ d ∈ p, 0 < dayCount ent d → st.worstAvg ≤ dayAvg ent d) ∧
     (∀ d ∈ p.takeWhile (fun x => x ≠ st.worstDay), 0 < dayCount ent d → st.worstAvg < dayAvg ent d))

/-- A witness list of ten entries with consecutive dates, all rated 5. -/
def tenEntries : List SleepEntry := (List.range 10).map (fun i => ⟨(i : ℤ), 5⟩)

/-- A witness list of 31 entries with consecutive dates, all rated 8. -/
def thirtyOneEntries : List SleepEntry := (List.range 31).map (fun i => ⟨(i : ℤ), 8⟩)

/-- A witness list of three entries with consecutive dates and strictly
increasing integer ratings. -/
def risingEntries : List SleepEntry := [⟨0, 3⟩, ⟨1, 4⟩, ⟨2, 5⟩]

section Helpers

theorem length_insertAsc (e : SleepEntry) (l : List SleepEntry) :
    (insertAsc e l).length = l.length + 1 := by
  induction l with
  | nil => rfl
  | cons a as ih =>
    unfold insertAsc
    split
    · simp
    · simp [ih]

theorem length_sortAscByDate (l : List SleepEntry) :
    (sortAscByDate l).length = l.length := by
  induction l with
  | nil => rfl
  | cons a as ih => simp [sortAscByDate, length_insertAsc, ih]

theorem mem_insertAsc {x e : SleepEntry} {l : List SleepEntry} :
    x ∈ insertAsc e l ↔ x = e ∨ x ∈ l := by
  induction l with
  | nil => simp [insertAsc]
  | cons a as ih =>
    unfold insertAsc
    split
    · simp
    · simp [ih]; tauto

theorem mem_sortAscByDate {x : SleepEntry} {l : List SleepEntry} :
    x ∈ sortAscByDate l ↔ x ∈ l := by
  induction l with
  | nil => simp [sortAscByDate]
  | cons a as ih => simp [sortAscByDate, mem_insertAsc, ih]

theorem length_insertDesc (e : SleepEntry) (l : List SleepEntry) :
    (insertDesc e l).length = l.length + 1 := by
  induction l with
  | nil => rfl
  | cons a as ih =>
    unfold insertDesc
    split
    · simp
    · simp [ih]

theorem length_sortDescByDate (l : List SleepEntry) :
    (sortDescByDate l).length = l.length := by
  induction l with
  | nil => rfl
  | cons a as ih => simp [sortDescByDate, length_insertDesc, ih]

theorem mem_insertDesc {x e : SleepEntry} {l : List SleepEntry} :
    x ∈ insertDesc e l ↔ x = e ∨ x ∈ l := by
  induction l with
  | nil => simp [insertDesc]
  | cons a as ih =>
    unfold insertDesc
    split
    · simp
    · simp [ih]; tauto

theorem mem_sortDescByDate {x : SleepEntry} {l : List SleepEntry} :
    x ∈ sortDescByDate l ↔ x ∈ l := by
  induction l with
  | nil => simp [sortDescByDate]
  | cons a as ih => simp [sortDescByDate, mem_insertDesc, ih]

theorem round2_zero : round2 0 = 0 := by
  norm_num [round2, jsRound]

theorem round2_nonneg {q : ℚ} (h : 0 ≤ q) : 0 ≤ round2 q := by
  have h1 : (0 : ℤ) ≤ jsRound (q * 100) := by
    rw [jsRound, Int.le_floor]
    push_cast
    linarith
  rw [round2]
  have h2 : (0 : ℚ) ≤ (jsRound (q * 100) : ℚ) := by exact_mod_cast h1
  linarith

theorem round2_le_one {q : ℚ} (h : q ≤ 1) : round2 q ≤ 1 := by
  have h1 : jsRound (q * 100) ≤ 100 := by
    rw [jsRound]
    calc ⌊q * 100 + 1/2⌋ ≤ ⌊(201/2 : ℚ)⌋ := Int.floor_le_floor (by linarith)
      _ = 100 := by norm_num
  rw [round2]
  have h2 : (jsRound (q * 100) : ℚ) ≤ 100 := by exact_mod_cast h1
  linarith

theorem one_le_round2 {q : ℚ} (h : 1 ≤ q) : 1 ≤ round2 q := by
  have h1 : (100 : ℤ) ≤ jsRound (q * 100) := by
    rw [jsRound, Int.le_floor]
    push_cast
    linarith
  rw [round2]
  have h2 : (100 : ℚ) ≤ (jsRound (q * 100) : ℚ) := by exact_mod_cast h1
  linarith

theorem dayOfWeek_lt (d : ℤ) : dayOfWeek d < 7 := by
  unfold dayOfWeek
  have h1 : 0 ≤ (d + 4) % 7 := Int.emod_nonneg _ (by norm_num)
  have h2 : (d + 4) % 7 < 7 := Int.emod_lt_of_pos _ (by norm_num)
  omega

theorem dayName_mem (d : ℤ) : dayName d ∈ dayNames := by
  unfold dayName
  have h : dayOfWeek d < dayNames.length := by
    have := dayOfWeek_lt d
    simp [dayNames]
    omega
  rw [List.getD_eq_getElem _ _ h]
  exact List.getElem_mem h

theorem length_le_sum {l : List ℚ} (h : ∀ x ∈ l, 1 ≤ x) : (l.length : ℚ) ≤ l.sum := by
  induction l with
  | nil => simp
  | cons a as ih =>
    have ha := h a (List.mem_cons_self a as)
    have has := ih (fun x hx => h x (List.mem_cons_of_mem a hx))
    simp only [List.length_cons, List.sum_cons]
    push_cast
    linarith

theorem sum_le_ten_mul {l : List ℚ} (h : ∀ x ∈ l, x ≤ 10) : l.sum ≤ 10 * l.length := by
  induction l with
  | nil => simp
  | cons a as ih =>
    have ha := h a (List.mem_cons_self a as)
    have has := ih (fun x hx => h x (List.mem_cons_of_mem a hx))
    simp only [List.length_cons, List.sum_cons]
    push_cast
    linarith

theorem mem_dayEntries_ratings {entries : List SleepEntry} {d : String} {x : ℚ}
    (hx : x ∈ (dayEntries entries d).map (fun e => e.rating)) :
    ∃ e ∈ entries, e.rating = x := by
  rcases List.mem_map.1 hx with ⟨e, he, rfl⟩
  exact ⟨e, (List.mem_filter.1 he).1, rfl⟩

theorem one_le_dayAvg {entries : List SleepEntry} {d : String}
    (hc : 0 < dayCount entries d) (hr : ∀ e ∈ entries, 1 ≤ e.rating) :
    1 ≤ dayAvg entries d := by
  unfold dayAvg daySum
  rw [le_div_iff₀ (by exact_mod_cast hc)]
  have h1 : ((dayEntries entries d).length : ℚ) ≤
      ((dayEntries entries d).map (fun e => e.rating)).sum := by
    have := length_le_sum (l := (dayEntries entries d).map (fun e => e.rating))
      (fun x hx => by rcases mem_dayEntries_ratings hx with ⟨e, he, rfl⟩; exact hr e he)
    simpa using this
  unfold dayCount
  linarith

theorem dayAvg_le_ten {entries : List SleepEntry} {d : String}
    (hc : 0 < dayCount entries d) (hr : ∀ e ∈ entries, e.rating ≤ 10) :
    dayAvg entries d ≤ 10 := by
  unfold dayAvg daySum
  rw [div_le_iff₀ (by exact_mod_cast hc)]
  have h1 : ((dayEntries entries d).map (fun e => e.rating)).sum ≤
      10 * ((dayEntries entries d).length : ℚ) := by
    have := sum_le_ten_mul (l := (dayEntries entries d).map (fun e => e.rating))
      (fun x hx => by rcases mem_dayEntries_ratings hx with ⟨e, he, rfl⟩; exact hr e he)
    simpa using this
  unfold dayCount
  linarith

theorem sq_list_sum_nonneg (l : List ℚ) (c : ℚ) :
    0 ≤ (l.map (fun a => (a - c) ^ 2)).sum := by
  apply List.sum_nonneg
  intro x hx
  rcases List.mem_map.1 hx with ⟨a, _, rfl⟩
  positivity

theorem consistency_expr_bounds (msqrt : ℚ → ℚ) (hsq : ∀ q, 0 ≤ q → 0 ≤ msqrt q)
    {v : ℚ} (hv : 0 ≤ v) :
    0 ≤ round2 (max 0 (1 - msqrt v / 5)) ∧ round2 (max 0 (1 - msqrt v / 5)) ≤ 1 := by
  have hsd : 0 ≤ msqrt v := hsq v hv
  constructor
  · exact round2_nonneg (le_max_left _ _)
  · apply round2_le_one
    apply max_le (by norm_num)
    linarith

theorem takeWhile_append_of_mem_false {α : Type} {P : α → Bool} {l r : List α} {b : α}
    (hb : b ∈ l) (hPb : P b = false) : (l ++ r).takeWhile P = l.takeWhile P := by
  induction l with
  | nil => simp at hb
  | cons x xs ih =>
    cases hx : P x with
    | false => simp [List.takeWhile_cons, hx]
    | true =>
      have hbx : b ∈ xs := by
        rcases List.mem_cons.1 hb with h | h
        · subst h; rw [hx] at hPb; cases hPb
        · exact h
      simp [List.takeWhile_cons, hx, ih hbx]

theorem takeWhile_append_of_all_true {α : Type} {P : α → Bool} {l r : List α}
    (h : ∀ x ∈ l, P x = true) : (l ++ r).takeWhile P = l ++ r.takeWhile P := by
  induction l with
  | nil => simp
  | cons x xs ih =>
    simp [List.takeWhile_cons, h x (List.mem_cons_self x xs),
      ih (fun y hy => h y (List.mem_cons_of_mem x hy))]

theorem bwStep_best_fields (ent : List SleepEntry) (st : BWState) (d : String) :
    (bwStep ent st d).bestDay =
      (if 0 < dayCount ent d ∧ st.bestAvg < dayAvg ent d then d else st.bestDay) ∧
    (bwStep ent st d).bestAvg =
      (if 0 < dayCount ent d ∧ st.bestAvg < dayAvg ent d then dayAvg ent d else st.bestAvg) := by
  unfold bwStep
  by_cases hc : 0 < dayCount ent d
  · rw [if_pos hc]
    dsimp only
    by_cases hb : st.bestAvg < dayAvg ent d
    · rw [if_pos hb]
      by_cases hw : dayAvg ent d <
          ({ st with bestDay := d, bestAvg := dayAvg ent d } : BWState).worstAvg
      · rw [if_pos hw]; simp [hc, hb]
      · rw [if_neg hw]; simp [hc, hb]
    · rw [if_neg hb]
      by_cases hw : dayAvg ent d < st.worstAvg
      · rw [if_pos hw]; simp [hc, hb]
      · rw [if_neg hw]; simp [hc, hb]
  · rw [if_neg hc]
    simp [hc]

theorem bwStep_worst_fields (ent : List SleepEntry) (st : BWState) (d : String) :
    (bwStep ent st d).worstDay =
      (if 0 < dayCount ent d ∧ dayAvg ent d < st.worstAvg then d else st.worstDay) ∧
    (bwStep ent st d).worstAvg =
      (if 0 < dayCount ent d ∧ dayAvg ent d < st.worstAvg then dayAvg ent d else st.worstAvg) := by
  unfold bwStep
  by_cases hc : 0 < dayCount ent d
  · rw [if_pos hc]
    dsimp only
    by_cases hb : st.bestAvg < dayAvg ent d
    · rw [if_pos hb]
      by_cases hw : dayAvg ent d < st.worstAvg
      · rw [if_pos hw]; simp [hc, hw]
      · rw [if_neg hw]; simp [hc, hw]
    · rw [if_neg hb]
      by_cases hw : dayAvg ent d < st.worstAvg
      · rw [if_pos hw]; simp [hc, hw]
      · rw [if_neg hw]; simp [hc, hw]
  · rw [if_neg hc]
    simp [hc]

theorem bestInv_step (ent : List SleepEntry) {p : List String} {st : BWState} {d : String}
    (hd : d ∉ p) (h : BestInv ent p st) : BestInv ent (p ++ [d]) (bwStep ent st d) := by
  obtain ⟨hbd, hba⟩ := bwStep_best_fields ent st d
  unfold BestInv
  by_cases hc : 0 < dayCount ent d
  · by_cases hlt : st.bestAvg < dayAvg ent d
    · right
      rw [hbd, hba, if_pos ⟨hc, hlt⟩, if_pos ⟨hc, hlt⟩]
      refine ⟨by simp, hc, rfl, ?_, ?_⟩
      · intro d' hd' hc'
        rcases List.mem_append.1 hd' with h' | h'
        · rcases h with ⟨_, hba0, hall⟩ | ⟨_, _, _, hall, _⟩
          · have := hall d' h' hc'
            rw [hba0] at hlt
            linarith
          · have := hall d' h' hc'
            linarith
        · simp at h'
          subst h'
          exact le_refl _
      · have htw : (p ++ [d]).takeWhile (fun x => decide (x ≠ d)) = p := by
          rw [takeWhile_append_of_all_true (fun x hx => by
            simp
            intro hxd
            exact hd (hxd ▸ hx))]
          simp
        rw [htw]
        intro d' hd' hc'
        rcases h with ⟨_, hba0, hall⟩ | ⟨_, _, _, hall, _⟩
        · have := hall d' hd' hc'
          rw [hba0] at hlt
          linarith
        · have := hall d' hd' hc'
          linarith
    · have hcond : ¬ (0 < dayCount ent d ∧ st.bestAvg < dayAvg ent d) := fun hh => hlt hh.2
      rw [hbd, hba, if_neg hcond, if_neg hcond]
      rcases h with ⟨hbd0, hba0, hall⟩ | ⟨hmem, hcnt, heq, hall, htw⟩
      · left
        refine ⟨hbd0, hba0, ?_⟩
        intro d' hd' hc'
        rcases List.mem_append.1 hd' with h' | h'
        · exact hall d' h' hc'
        · simp at h'
          subst h'
          rw [← hba0]
          exact le_of_not_lt hlt
      · right
        refine ⟨List.mem_append_left _ hmem, hcnt, heq, ?_, ?_⟩
        · intro d' hd' hc'
          rcases List.mem_append.1 hd' with h' | h'
          · exact hall d' h' hc'
          · simp at h'
            subst h'
            exact le_of_not_lt hlt
        · rw [takeWhile_append_of_mem_false hmem (by simp)]
          exact htw
  · have hcond : ¬ (0 < dayCount ent d ∧ st.bestAvg < dayAvg ent d) := fun hh => hc hh.1
    rw [hbd, hba, if_neg hcond, if_neg hcond]
    rcases h with ⟨hbd0, hba0, hall⟩ | ⟨hmem, hcnt, heq, hall, htw⟩
    · left
      refine ⟨hbd0, hba0, ?_⟩
      intro d' hd' hc'
      rcases List.mem_append.1 hd' with h' | h'
      · exact hall d' h' hc'
      · simp at h'
        subst h'
        exact absurd hc' hc
    · right
      refine ⟨List.mem_append_left _ hmem, hcnt, heq, ?_, ?_⟩
      · intro d' hd' hc'
        rcases List.mem_append.1 hd' with h' | h'
        · exact hall d' h' hc'
        · simp at h'
          subst h'
          exact absurd hc' hc
      · rw [takeWhile_append_of_mem_false hmem (by simp)]
        exact htw

theorem worstInv_step (ent : List SleepEntry) {p : List String} {st : BWState} {d : String}
    (hd : d ∉ p) (h : WorstInv ent p st) : WorstInv ent (p ++ [d]) (bwStep ent st d) := by
  obtain ⟨hwd, hwa⟩ := bwStep_worst_fields ent st d
  unfold WorstInv
  by_cases hc : 0 < dayCount ent d
  · by_cases hlt : dayAvg ent d < st.worstAvg
    · right
      rw [hwd, hwa, if_pos ⟨hc, hlt⟩, if_pos ⟨hc, hlt⟩]
      have hlt10 : dayAvg ent d < 10 := by
        rcases h with ⟨_, hwa0, _⟩ | ⟨_, _, _, hwa10, _, _⟩
        · rw [hwa0] at hlt
          exact hlt
        · linarith
      refine ⟨by simp, hc, rfl, hlt10, ?_, ?_⟩
      · intro d' hd' hc'
        rcases List.mem_append.1 hd' with h' | h'
        · rcases h with ⟨_, hwa0, hall⟩ | ⟨_, _, _, _, hall, _⟩
          · have := hall d' h' hc'
            rw [hwa0] at hlt
            linarith
          · have := hall d' h' hc'
            linarith
        · simp at h'
          subst h'
          exact le_refl _
      · have htw : (p ++ [d]).takeWhile (fun x => decide (x ≠ d)) = p := by
          rw [takeWhile_append_of_all_true (fun x hx => by
            simp
            intro hxd
            exact hd (hxd ▸ hx))]
          simp
        rw [htw]
        intro d' hd' hc'
        rcases h with ⟨_, hwa0, hall⟩ | ⟨_, _, _, _, hall, _⟩
        · have := hall d' hd' hc'
          rw [hwa0] at hlt
          linarith
        · have := hall d' hd' hc'
          linarith
    · have hcond : ¬ (0 < dayCount ent d ∧ dayAvg ent d < st.worstAvg) := fun hh => hlt hh.2
      rw [hwd, hwa, if_neg hcond, if_neg hcond]
      rcases h with ⟨hwd0, hwa0, hall⟩ | ⟨hmem, hcnt, heq, h10, hall, htw⟩
      · left
        refine ⟨hwd0, hwa0, ?_⟩
        intro d' hd' hc'
        rcases List.mem_append.1 hd' with h' | h'
        · exact hall d' h' hc'
        · simp at h'
          subst h'
          rw [← hwa0]
          exact le_of_not_lt hlt
      · right
        refine ⟨List.mem_append_left _ hmem, hcnt, heq, h10, ?_, ?_⟩
        · intro d' hd' hc'
          rcases List.mem_append.1 hd' with h' | h'
          · exact hall d' h' hc'
          · simp at h'
            subst h'
            exact le_of_not_lt hlt
        · rw [takeWhile_append_of_mem_false hmem (by simp)]
          exact htw
  · have hcond : ¬ (0 < dayCount ent d ∧ dayAvg ent d < st.worstAvg) := fun hh => hc hh.1
    rw [hwd, hwa, if_neg hcond, if_neg hcond]
    rcases h with ⟨hwd0, hwa0, hall⟩ | ⟨hmem, hcnt, heq, h10, hall, htw⟩
    · left
      refine ⟨hwd0, hwa0, ?_⟩
      intro d' hd' hc'
      rcases List.mem_append.1 hd' with h' | h'
      · exact hall d' h' hc'
      · simp at h'
        subst h'
        exact absurd hc' hc
    · right
      refine ⟨List.mem_append_left _ hmem, hcnt, heq, h10, ?_, ?_⟩
      · intro d' hd' hc'
        rcases List.mem_append.1 hd' with h' | h'
        · exact hall d' h' hc'
        · simp at h'
          subst h'
          exact absurd hc' hc
      · rw [takeWhile_append_of_mem_false hmem (by simp)]
        exact htw

theorem bwFold_inv (ent : List SleepEntry) :
    ∀ p : List String, p.Nodup →
      BestInv ent p (p.foldl (bwStep ent) ⟨"", "", 0, 10⟩) ∧
      WorstInv ent p (p.foldl (bwStep ent) ⟨"", "", 0, 10⟩) := by
  intro p
  induction p using List.reverseRecOn with
  | nil =>
    intro _
    constructor
    · left
      exact ⟨rfl, rfl, by simp⟩
    · left
      exact ⟨rfl, rfl, by simp⟩
  | append_singleton p d ih =>
    intro hnd
    have hp : p.Nodup := by
      rw [List.nodup_append] at hnd
      exact hnd.1
    have hdp : d ∉ p := by
      rw [List.nodup_append] at hnd
      intro hmem
      exact hnd.2.2 hmem (List.mem_singleton_self d)
    obtain ⟨hbest, hworst⟩ := ih hp
    rw [List.foldl_append]
    simp only [List.foldl_cons, List.foldl_nil]
    exact ⟨bestInv_step ent hdp hbest, worstInv_step ent hdp hworst⟩

theorem analyzePatterns_bestDay_eq (msqrt : ℚ → ℚ) (ent : List SleepEntry) :
    (analyzePatterns msqrt ent).bestDay =
      (if (bwFold ent).bestDay = "" then "N/A" else (bwFold ent).bestDay) := rfl

theorem analyzePatterns_worstDay_eq (msqrt : ℚ → ℚ) (ent : List SleepEntry) :
    (analyzePatterns msqrt ent).worstDay =
      (if (bwFold ent).worstDay = "" then "N/A" else (bwFold ent).worstDay) := rfl

theorem empty_not_mem_dayNames : ("" : String) ∉ dayNames := by decide

theorem dayCount_pos_of_mem {entries : List SleepEntry} {e : SleepEntry} (he : e ∈ entries) :
    0 < dayCount entries (dayName e.date) := by
  have hmem : e ∈ dayEntries entries (dayName e.date) := by
    unfold dayEntries
    rw [List.mem_filter]
    exact ⟨he, by simp⟩
  unfold dayCount
  exact List.length_pos.2 (fun h => by rw [h] at hmem; simp at hmem)

theorem listRangeMapSum (n : ℕ) (f : ℕ → ℚ) :
    ((List.range n).map f).sum = ∑ i in Finset.range n, f i := by
  induction n with
  | zero => simp
  | succ m ih =>
    rw [List.range_succ, List.map_append, List.sum_append, Finset.sum_range_succ, ih]
    simp

theorem list_sum_eq_sum_getD (l : List ℚ) :
    l.sum = ∑ i in Finset.range l.length, l.getD i 0 := by
  induction l with
  | nil => simp
  | cons a as ih =>
    rw [List.sum_cons, List.length_cons, Finset.sum_range_succ', ih]
    simp [List.getD]
    ring

theorem double_sum_expand (n : ℕ) (f g : ℕ → ℚ) :
    ∑ i in Finset.range n, ∑ j in Finset.range n, (f i - f j) * (g i - g j)
      = 2 * ((n : ℚ) * (∑ i in Finset.range n, f i * g i)
          - (∑ i in Finset.range n, f i) * (∑ i in Finset.range n, g i)) := by
  have h1 : ∀ i, ∑ j in Finset.range n, (f i - f j) * (g i - g j)
      = (n : ℚ) * (f i * g i) - f i * (∑ j in Finset.range n, g j)
        - (∑ j in Finset.range n, f j) * g i + ∑ j in Finset.range n, f j * g j := by
    intro i
    have h2 : ∀ j, (f i - f j) * (g i - g j)
        = f i * g i - f i * g j - f j * g i + f j * g j := by intro j; ring
    simp_rw [h2]
    rw [Finset.sum_add_distrib, Finset.sum_sub_distrib, Finset.sum_sub_distrib,
      Finset.sum_const, ← Finset.mul_sum, ← Finset.sum_mul, Finset.card_range]
    ring
  simp_rw [h1]
  rw [Finset.sum_add_distrib, Finset.sum_sub_distrib, Finset.sum_sub_distrib,
    Finset.sum_const, ← Finset.mul_sum, ← Finset.sum_mul, ← Finset.mul_sum, Finset.card_range]
  ring

theorem den_double_pos (n : ℕ) (hn : 2 ≤ n) :
    0 < ∑ i in Finset.range n, ∑ j in Finset.range n, ((i:ℚ) - (j:ℚ)) * ((i:ℚ) - (j:ℚ)) := by
  apply Finset.sum_pos'
  · intro i _
    apply Finset.sum_nonneg
    intro j _
    exact mul_self_nonneg _
  · refine ⟨1, Finset.mem_range.2 (by omega), ?_⟩
    apply Finset.sum_pos'
    · intro j _
      exact mul_self_nonneg _
    · refine ⟨0, Finset.mem_range.2 (by omega), by norm_num⟩

theorem den_pos (n : ℕ) (hn : 2 ≤ n) :
    0 < (n : ℚ) * (∑ i in Finset.range n, (i:ℚ) * (i:ℚ))
      - (∑ i in Finset.range n, (i:ℚ)) * (∑ i in Finset.range n, (i:ℚ)) := by
  have h := den_double_pos n hn
  rw [double_sum_expand n (fun i => (i:ℚ)) (fun i => (i:ℚ))] at h
  linarith

theorem int_rat_step {q r : ℚ} (hq : q.den = 1) (hr : r.den = 1) (h : q < r) : q + 1 ≤ r := by
  have hq1 : (q.num : ℚ) = q := Rat.coe_int_num_of_den_eq_one hq
  have hr1 : (r.num : ℚ) = r := Rat.coe_int_num_of_den_eq_one hr
  rw [← hq1, ← hr1] at h ⊢
  have h2 : q.num < r.num := by exact_mod_cast h
  have h3 : q.num + 1 ≤ r.num := h2
  exact_mod_cast h3

theorem chain_lt_step (ys : List ℚ) (hchain : ys.Chain' (· < ·))
    (hden : ∀ q ∈ ys, q.den = 1) :
    ∀ i, i + 1 < ys.length → ys.getD i 0 + 1 ≤ ys.getD (i+1) 0 := by
  intro i hi
  have hget := (List.chain'_iff_get.1 hchain) i (by omega)
  have h1 : ys.getD i 0 = ys.get ⟨i, by omega⟩ := by
    rw [List.getD_eq_getElem _ _ (by omega)]
    simp
  have h2 : ys.getD (i+1) 0 = ys.get ⟨i+1, by omega⟩ := by
    rw [List.getD_eq_getElem _ _ (by omega)]
    simp
  rw [h1, h2]
  exact int_rat_step (hden _ (ys.get_mem _ _)) (hden _ (ys.get_mem _ _)) hget

theorem chain_lt_accum (ys : List ℚ) (hchain : ys.Chain' (· < ·))
    (hden : ∀ q ∈ ys, q.den = 1) :
    ∀ i j, i ≤ j → j < ys.length → ys.getD i 0 + ((j:ℚ) - (i:ℚ)) ≤ ys.getD j 0 := by
  intro i j hij hjlen
  induction j, hij using Nat.le_induction with
  | base => simp
  | succ m him ih =>
    have hstep := chain_lt_step ys hchain hden m (by omega)
    have hih := ih (by omega)
    push_cast
    push_cast at hih
    linarith

theorem chain_gt_accum (ys : List ℚ) (hchain : ys.Chain' (· > ·))
    (hden : ∀ q ∈ ys, q.den = 1) :
    ∀ i j, i ≤ j → j < ys.length → ys.getD j 0 + ((j:ℚ) - (i:ℚ)) ≤ ys.getD i 0 := by
  intro i j hij hjlen
  induction j, hij using Nat.le_induction with
  | base => simp
  | succ m him ih =>
    have hstep : ys.getD (m+1) 0 + 1 ≤ ys.getD m 0 := by
      have hget := (List.chain'_iff_get.1 hchain) m (by omega)
      have h1 : ys.getD m 0 = ys.get ⟨m, by omega⟩ := by
        rw [List.getD_eq_getElem _ _ (by omega)]
        simp
      have h2 : ys.getD (m+1) 0 = ys.get ⟨m+1, by omega⟩ := by
        rw [List.getD_eq_getElem _ _ (by omega)]
        simp
      rw [h1, h2]
      exact int_rat_step (hden _ (ys.get_mem _ _)) (hden _ (ys.get_mem _ _)) hget
    have hih := ih (by omega)
    push_cast
    push_cast at hih
    linarith

theorem regressionSlope_eq (ys : List ℚ) :
    regressionSlope ys =
      ((ys.length : ℚ) * (∑ i in Finset.range ys.length, (i:ℚ) * ys.getD i 0)
        - (∑ i in Finset.range ys.length, (i:ℚ)) * (∑ i in Finset.range ys.length, ys.getD i 0))
      / ((ys.length : ℚ) * (∑ i in Finset.range ys.length, (i:ℚ) * (i:ℚ))
        - (∑ i in Finset.range ys.length, (i:ℚ)) * (∑ i in Finset.range ys.length, (i:ℚ))) := by
  rw [regressionSlope]
  rw [listRangeMapSum, listRangeMapSum, listRangeMapSum, list_sum_eq_sum_getD]

theorem slope_ge_one (ys : List ℚ) (h2 : 2 ≤ ys.length) (hchain : ys.Chain' (· < ·))
    (hden : ∀ q ∈ ys, q.den = 1) : 1 ≤ regressionSlope ys := by
  have haccum := chain_lt_accum ys hchain hden
  have hterm : ∀ i ∈ Finset.range ys.length, ∀ j ∈ Finset.range ys.length,
      ((i:ℚ) - (j:ℚ)) * ((i:ℚ) - (j:ℚ)) ≤ ((i:ℚ) - (j:ℚ)) * (ys.getD i 0 - ys.getD j 0) := by
    intro i hi j hj
    rcases lt_trichotomy i j with h | h | h
    · have hacc := haccum i j (le_of_lt h) (Finset.mem_range.1 hj)
      have hij : (i:ℚ) < (j:ℚ) := by exact_mod_cast h
      nlinarith
    · subst h
      simp
    · have hacc := haccum j i (le_of_lt h) (Finset.mem_range.1 hi)
      have hij : (j:ℚ) < (i:ℚ) := by exact_mod_cast h
      nlinarith
  have hsum : ∑ i in Finset.range ys.length, ∑ j in Finset.range ys.length,
        ((i:ℚ) - (j:ℚ)) * ((i:ℚ) - (j:ℚ))
      ≤ ∑ i in Finset.range ys.length, ∑ j in Finset.range ys.length,
        ((i:ℚ) - (j:ℚ)) * (ys.getD i 0 - ys.getD j 0) :=
    Finset.sum_le_sum (fun i hi => Finset.sum_le_sum (fun j hj => hterm i hi j hj))
  rw [double_sum_expand ys.length (fun i => (i:ℚ)) (fun i => (i:ℚ)),
    double_sum_expand ys.length (fun i => (i:ℚ)) (fun i => ys.getD i 0)] at hsum
  have hD := den_pos ys.length h2
  rw [regressionSlope_eq, le_div_iff₀ hD]
  linarith

theorem slope_le_neg_one (ys : List ℚ) (h2 : 2 ≤ ys.length) (hchain : ys.Chain' (· > ·))
    (hden : ∀ q ∈ ys, q.den = 1) : regressionSlope ys ≤ -1 := by
  have haccum := chain_gt_accum ys hchain hden
  have hterm : ∀ i ∈ Finset.range ys.length, ∀ j ∈ Finset.range ys.length,
      ((i:ℚ) - (j:ℚ)) * (ys.getD i 0 - ys.getD j 0)
        ≤ -(((i:ℚ) - (j:ℚ)) * ((i:ℚ) - (j:ℚ))) := by
    intro i hi j hj
    rcases lt_trichotomy i j with h | h | h
    · have hacc := haccum i j (le_of_lt h) (Finset.mem_range.1 hj)
      have hij : (i:ℚ) < (j:ℚ) := by exact_mod_cast h
      nlinarith
    · subst h
      simp
    · have hacc := haccum j i (le_of_lt h) (Finset.mem_range.1 hi)
      have hij : (j:ℚ) < (i:ℚ) := by exact_mod_cast h
      nlinarith
  have hsum : ∑ i in Finset.range ys.length, ∑ j in Finset.range ys.length,
        ((i:ℚ) - (j:ℚ)) * (ys.getD i 0 - ys.getD j 0)
      ≤ ∑ i in Finset.range ys.length, ∑ j in Finset.range ys.length,
        (-(((i:ℚ) - (j:ℚ)) * ((i:ℚ) - (j:ℚ)))) :=
    Finset.sum_le_sum (fun i hi => Finset.sum_le_sum (fun j hj => hterm i hi j hj))
  simp only [Finset.sum_neg_distrib] at hsum
  rw [double_sum_expand ys.length (fun i => (i:ℚ)) (fun i => ys.getD i 0),
    double_sum_expand ys.length (fun i => (i:ℚ)) (fun i => (i:ℚ))] at hsum
  have hD := den_pos ys.length h2
  rw [regressionSlope_eq, div_le_iff₀ hD]
  linarith

theorem slope_eq_zero_of_const (ys : List ℚ)
    (hc : ∀ i ∈ Finset.range ys.length, ∀ j ∈ Finset.range ys.length,
      ys.getD i 0 = ys.getD j 0) :
    regressionSlope ys = 0 := by
  have h0 : ∑ i in Finset.range ys.length, ∑ j in Finset.range ys.length,
      ((i:ℚ) - (j:ℚ)) * (ys.getD i 0 - ys.getD j 0) = 0 :=
    Finset.sum_eq_zero (fun i hi => Finset.sum_eq_zero (fun j hj => by
      rw [hc i hi j hj]; ring))
  rw [double_sum_expand ys.length (fun i => (i:ℚ)) (fun i => ys.getD i 0)] at h0
  rw [regressionSlope_eq]
  have hz : (ys.length : ℚ) * (∑ i in Finset.range ys.length, (i:ℚ) * ys.getD i 0)
      - (∑ i in Finset.range ys.length, (i:ℚ)) * (∑ i in Finset.range ys.length, ys.getD i 0)
      = 0 := by linarith
  rw [hz, zero_div]

theorem ys_getD_mem (entries : List SleepEntry) (i : ℕ)
    (hi : i < ((sortAscByDate entries).map (fun e => e.rating)).length) :
    ∃ e ∈ entries, ((sortAscByDate entries).map (fun e => e.rating)).getD i 0 = e.rating := by
  have hi2 : i < (sortAscByDate entries).length := by simpa using hi
  refine ⟨(sortAscByDate entries).get ⟨i, hi2⟩,
    mem_sortAscByDate.1 (List.get_mem _ _ _), ?_⟩
  rw [List.getD_eq_getElem _ _ hi]
  simp

theorem length_insightRule1 (fmt : ℚ → String) (o : SleepStatistics) :
    (insightRule1 fmt o).length = 1 := by
  unfold insightRule1
  split_ifs <;> rfl

theorem insightRule1_head_type (fmt : ℚ → String) (o : SleepStatistics) :
    (insightRule1 fmt o).head?.map (fun i => i.type) =
      some (if 8 ≤ o.average then InsightType.positive
            else if 6 ≤ o.average then InsightType.info else InsightType.warning) := by
  unfold insightRule1
  split_ifs <;> rfl

theorem length_insightRule2_le (t : SleepTrend) : (insightRule2 t).length ≤ 1 := by
  unfold insightRule2
  split_ifs <;> simp

theorem length_insightRule3_le (o : SleepStatistics) : (insightRule3 o).length ≤ 1 := by
  unfold insightRule3
  split_ifs <;> simp

theorem length_insightRule4_le (f1 : ℚ → String) (p : SleepPattern) :
    (insightRule4 f1 p).length ≤ 1 := by
  simp only [insightRule4]
  split_ifs <;> simp

theorem length_insightRule5_le (entries : List SleepEntry) (o : SleepStatistics) :
    (insightRule5 entries o).length ≤ 1 := by
  simp only [insightRule5]
  split_ifs <;> simp

end Helpers

section ClaimC9

/-- C9: `calculateStatistics` applied to the empty entry list returns exactly
`{average: 0, highest: 0, lowest: 0, total: 0, trend: 'stable',
consistency: 0}`, without raising an error. -/
theorem c9_empty_statistics (msqrt : ℚ → ℚ) :
    calculateStatistics msqrt [] =
      { average := 0, highest := 0, lowest := 0, total := 0,
        trend := .stable, consistency := 0 } := rfl

end ClaimC9

section ClaimC1

/-- C1 counterexample: on the spec's nine-entry vector (ratings
`[8,8,8,3,3,9,9,9,9]` in ascending date order) `calculateStreaks` does NOT
return `{current: 4, longest: 4, type: 'good'}` — the loop resets the
current streak at every type change inside the first 30 positions, so it
ends as the length of the last run walked, 3, not the head run, 4. -/
theorem c1_streaks_counterexample :
    calculateStreaks c1Entries ≠ { current := 4, longest := 4, type := .good } := by
  decide

/-- C1 amended: on the spec's nine-entry vector `calculateStreaks` returns
`longest = 4` and `type = 'good'` as claimed, but `current = 3` (the length
of the last same-type run encountered within the first 30 positions of the
descending-date order) instead of 4. -/
theorem c1_streaks_amended :
    calculateStreaks c1Entries = { current := 3, longest := 4, type := .good } := by
  decide

end ClaimC1

section ClaimC2

/-- C2 counterexample: the detailed trend classifier `analyzeTrend` reads no
clock, so there is no input list and no pair of invocation instants at
which it returns different outputs — refuting the claim's final conjunct. -/
theorem c2_analyzeTrend_time_independent_counterexample :
    ¬ ∃ (f1 : ℚ → String) (es : List SleepEntry) (t t' : ℤ),
        analyzeTrendAt f1 t es ≠ analyzeTrendAt f1 t' es := by
  rintro ⟨f1, es, t, t', h⟩
  exact h rfl

/-- C2 amended: every analytics function returns identical output across
repeated calls on a fixed input, `analyzeTrend` returns identical output at
every invocation instant, and the only function whose output depends on the
current instant is `comparePeriods` (witnessed by a fixed one-entry list
evaluated at two instants). -/
theorem c2_amended_only_comparePeriods_time_dependent :
    (∀ (f1 : ℚ → String) (t t' : ℤ) (es : List SleepEntry),
        analyzeTrendAt f1 t es = analyzeTrendAt f1 t' es) ∧
    comparePeriods 0 [⟨0, 8⟩] ≠ comparePeriods 1000000000000 [⟨0, 8⟩] := by
  constructor
  · intro _ _ _ _
    rfl
  · intro h
    have h1 : (comparePeriods 0 [⟨0, 8⟩]).thisWeek = 8 := by
      norm_num [comparePeriods, thisWeekEntries, periodAverage, msPerDay, round2, jsRound,
        List.filter]
    have h2 : (comparePeriods 1000000000000 [⟨0, 8⟩]).thisWeek = 0 := by
      norm_num [comparePeriods, thisWeekEntries, periodAverage, msPerDay, round2, jsRound,
        List.filter]
    rw [h] at h1
    rw [h1] at h2
    norm_num at h2

end ClaimC2

section ClaimC7

/-- C7: on every entry list with at most 14 entries `analyzeTrend` returns
direction `stable`, strength `weak` and percentage 0 (for fewer than 7
entries via the first guard, for 7 to 14 entries via the empty earlier
window), rather than raising an error. -/
theorem c7_insufficient_history (f1 : ℚ → String) (entries : List SleepEntry)
    (h : entries.length ≤ 14) :
    (analyzeTrend f1 entries).direction = .stable ∧
    (analyzeTrend f1 entries).strength = .weak ∧
    (analyzeTrend f1 entries).percentage = 0 := by
  by_cases h7 : entries.length < 7
  · simp [analyzeTrend, h7]
  · have hs : (sortAscByDate entries).length = entries.length := length_sortAscByDate entries
    have h0 : (sortAscByDate entries).length - 14 = 0 := by omega
    simp [analyzeTrend, h7, h0]

/-- C7 witness: a concrete ten-entry list. -/
theorem c7_insufficient_history_witness :
    tenEntries.length ≤ 14 ∧
    ((analyzeTrend (fun _ => "") tenEntries).direction = .stable ∧
     (analyzeTrend (fun _ => "") tenEntries).strength = .weak ∧
     (analyzeTrend (fun _ => "") tenEntries).percentage = 0) :=
  ⟨by decide, c7_insufficient_history (fun _ => "") tenEntries (by decide)⟩

end ClaimC7

section ClaimC8

/-- C8: inserting an entry dated strictly more than 60 days before the
invocation instant changes none of the four means returned by
`comparePeriods`, and each empty window reports 0. -/
theorem c8_period_window_independence (now : ℤ) (l1 l2 : List SleepEntry)
    (e : SleepEntry) (he : e.date * msPerDay < now - 60 * msPerDay) :
    comparePeriods now (l1 ++ e :: l2) = comparePeriods now (l1 ++ l2) ∧
    (∀ es, thisWeekEntries now es = [] → (comparePeriods now es).thisWeek = 0) ∧
    (∀ es, lastWeekEntries now es = [] → (comparePeriods now es).lastWeek = 0) ∧
    (∀ es, thisMonthEntries now es = [] → (comparePeriods now es).thisMonth = 0) ∧
    (∀ es, lastMonthEntries now es = [] → (comparePeriods now es).lastMonth = 0) := by
  have hm : msPerDay = 86400000 := rfl
  have h7 : ¬ (now - 7 * msPerDay ≤ e.date * msPerDay) := by rw [hm] at he ⊢; omega
  have h14 : ¬ (now - 14 * msPerDay ≤ e.date * msPerDay) := by rw [hm] at he ⊢; omega
  have h30 : ¬ (now - 30 * msPerDay ≤ e.date * msPerDay) := by rw [hm] at he ⊢; omega
  have h60 : ¬ (now - 60 * msPerDay ≤ e.date * msPerDay) := by rw [hm] at he ⊢; omega
  refine ⟨?_, ?_, ?_, ?_, ?_⟩
  · have hW : thisWeekEntries now (l1 ++ e :: l2) = thisWeekEntries now (l1 ++ l2) := by
      unfold thisWeekEntries
      simp [List.filter_append, List.filter_cons, h7]
      rw [hm] at he ⊢
      omega
    have hLW : lastWeekEntries now (l1 ++ e :: l2) = lastWeekEntries now (l1 ++ l2) := by
      unfold lastWeekEntries
      simp [List.filter_append, List.filter_cons, h14]
      rw [hm] at he ⊢
      intro h
      omega
    have hM : thisMonthEntries now (l1 ++ e :: l2) = thisMonthEntries now (l1 ++ l2) := by
      unfold thisMonthEntries
      simp [List.filter_append, List.filter_cons, h30]
      rw [hm] at he ⊢
      omega
    have hLM : lastMonthEntries now (l1 ++ e :: l2) = lastMonthEntries now (l1 ++ l2) := by
      unfold lastMonthEntries
      simp [List.filter_append, List.filter_cons, h60]
      rw [hm] at he ⊢
      intro h
      omega
    unfold comparePeriods
    rw [hW, hLW, hM, hLM]
  · intro es h
    simp [comparePeriods, h, periodAverage, round2_zero]
  · intro es h
    simp [comparePeriods, h, periodAverage, round2_zero]
  · intro es h
    simp [comparePeriods, h, periodAverage, round2_zero]
  · intro es h
    simp [comparePeriods, h, periodAverage, round2_zero]

/-- C8 witness: instant 0, the list `[⟨0, 8⟩]`, and an extra entry 100 days
in the past. -/
theorem c8_period_window_independence_witness :
    ((⟨-100, 5⟩ : SleepEntry).date * msPerDay < 0 - 60 * msPerDay) ∧
    (comparePeriods 0 ([] ++ (⟨-100, 5⟩ : SleepEntry) :: [⟨0, 8⟩]) =
        comparePeriods 0 ([] ++ [⟨0, 8⟩]) ∧
      (∀ es, thisWeekEntries 0 es = [] → (comparePeriods 0 es).thisWeek = 0) ∧
      (∀ es, lastWeekEntries 0 es = [] → (comparePeriods 0 es).lastWeek = 0) ∧
      (∀ es, thisMonthEntries 0 es = [] → (comparePeriods 0 es).thisMonth = 0) ∧
      (∀ es, lastMonthEntries 0 es = [] → (comparePeriods 0 es).lastMonth = 0)) :=
  ⟨by decide, c8_period_window_independence 0 [] [⟨0, 8⟩] ⟨-100, 5⟩ (by decide)⟩

end ClaimC8

section ClaimC10

/-- C10: `generateInsights` always returns between 1 and 5 insights, and the
first one is the average-quality tier insight: `positive` when the overview
average is at least 8, `info` when it is at least 6, `warning` otherwise. -/
theorem c10_insights_shape (fmt f1 : ℚ → String) (entries : List SleepEntry)
    (overview : SleepStatistics) (trend : SleepTrend) (pattern : SleepPattern) :
    1 ≤ (generateInsights fmt f1 entries overview trend pattern).length ∧
    (generateInsights fmt f1 entries overview trend pattern).length ≤ 5 ∧
    (generateInsights fmt f1 entries overview trend pattern).head?.map (fun i => i.type) =
      some (if 8 ≤ overview.average then InsightType.positive
            else if 6 ≤ overview.average then InsightType.info else InsightType.warning) := by
  have h1 := length_insightRule1 fmt overview
  have h2 := length_insightRule2_le trend
  have h3 := length_insightRule3_le overview
  have h4 := length_insightRule4_le f1 pattern
  have h5 := length_insightRule5_le entries overview
  refine ⟨?_, ?_, ?_⟩
  · unfold generateInsights
    simp only [List.length_append]
    omega
  · unfold generateInsights
    simp only [List.length_append]
    omega
  · have hh := insightRule1_head_type fmt overview
    unfold generateInsights
    cases h : insightRule1 fmt overview with
    | nil => rw [h] at h1; simp at h1
    | cons a l =>
      rw [h] at hh
      simpa using hh

end ClaimC10

section ClaimC5

theorem streakStep_same (T : StreakType) (k : ℕ) (hk : k ≠ 0) (e : SleepEntry)
    (hTe : streakTypeOf e.rating = T) :
    streakStep ⟨min k 30, 0, k, T, T⟩ k e = ⟨min (k+1) 30, 0, k+1, T, T⟩ := by
  unfold streakStep
  rw [hTe]
  rw [if_neg hk]
  simp only [if_pos rfl]
  by_cases h30 : k < 30
  · rw [if_pos h30]
    simp [StreakState.mk.injEq]
    omega
  · rw [if_neg h30]
    simp [StreakState.mk.injEq]
    omega

theorem streaksGo_same (T : StreakType) :
    ∀ (l : List SleepEntry) (k : ℕ), 1 ≤ k →
      (∀ e ∈ l, streakTypeOf e.rating = T) →
      streaksGo ⟨min k 30, 0, k, T, T⟩ k l =
        ⟨min (k + l.length) 30, 0, k + l.length, T, T⟩ := by
  intro l
  induction l with
  | nil => intro k hk hT; simp [streaksGo]
  | cons e rest ih =>
    intro k hk hT
    rw [streaksGo]
    rw [streakStep_same T k (by omega) e (hT e (List.mem_cons_self e rest))]
    rw [ih (k+1) (by omega) (fun x hx => hT x (List.mem_cons_of_mem e hx))]
    simp [StreakState.mk.injEq]
    constructor <;> omega

/-- C5: on more than 30 entries with pairwise distinct dates whose ratings
all classify to one streak type, `calculateStreaks` returns `current = 30`
(the 30-position recency cutoff), `longest` equal to the full length, and
that common type. -/
theorem c5_streak_cutoff (entries : List SleepEntry) (h30 : 30 < entries.length)
    (_hdist : entries.Pairwise (fun a b => a.date ≠ b.date))
    (T : StreakType) (hT : ∀ e ∈ entries, streakTypeOf e.rating = T) :
    calculateStreaks entries = { current := 30, longest := entries.length, type := T } := by
  have hne : ¬ (entries.length = 0) := by omega
  unfold calculateStreaks
  rw [if_neg hne]
  have hlen : (sortDescByDate entries).length = entries.length := length_sortDescByDate entries
  cases hsort : sortDescByDate entries with
  | nil => rw [hsort] at hlen; simp at hlen; omega
  | cons e rest =>
    have he : e ∈ entries := by
      rw [← mem_sortDescByDate (l := entries)]
      rw [hsort]
      exact List.mem_cons_self e rest
    have hrest : ∀ x ∈ rest, streakTypeOf x.rating = T := by
      intro x hx
      have : x ∈ entries := by
        rw [← mem_sortDescByDate (l := entries)]
        rw [hsort]
        exact List.mem_cons_of_mem e hx
      exact hT x this
    dsimp only
    rw [streaksGo]
    have hstep0 : streakStep ⟨0, 0, 0, .neutral, .neutral⟩ 0 e = ⟨1, 0, 1, T, T⟩ := by
      unfold streakStep
      rw [hT e he]
      simp
    rw [hstep0]
    have h1 : (⟨1, 0, 1, T, T⟩ : StreakState) = ⟨min 1 30, 0, 1, T, T⟩ := by norm_num
    rw [h1]
    rw [streaksGo_same T rest 1 (by omega) hrest]
    have hn : 1 + rest.length = entries.length := by
      rw [hsort] at hlen
      simp at hlen
      omega
    rw [hn]
    simp [StreakResult.mk.injEq]
    omega

/-- C5 witness: 31 entries on consecutive dates, all rated 8 (type `good`). -/
theorem c5_streak_cutoff_witness :
    (30 < thirtyOneEntries.length ∧
      thirtyOneEntries.Pairwise (fun a b => a.date ≠ b.date) ∧
      ∀ e ∈ thirtyOneEntries, streakTypeOf e.rating = .good) ∧
    calculateStreaks thirtyOneEntries = { current := 30, longest := 31, type := .good } :=
  ⟨⟨by decide, by decide, by decide⟩,
    c5_streak_cutoff thirtyOneEntries (by decide) (by decide) .good (by decide)⟩

end ClaimC5

section ClaimC3

/-- C3 counterexample: on the empty entry list `analyzePatterns` divides by
the length of the empty `validAverages` list, producing `NaN` (modelled as
`none`), so its `consistencyScore` does not lie in `[0, 1]`. -/
theorem c3_consistency_counterexample :
    (analyzePatterns (fun _ => 0) []).consistencyScore = none ∧
    ¬ ∃ c, (analyzePatterns (fun _ => 0) []).consistencyScore = some c ∧ 0 ≤ c ∧ c ≤ 1 := by
  have h : (analyzePatterns (fun _ => 0) []).consistencyScore = none := rfl
  refine ⟨h, ?_⟩
  rintro ⟨c, hc, _⟩
  rw [h] at hc
  cases hc

/-- C3 amended: the `consistency` field of `calculateStatistics` lies in
`[0, 1]` for every entry list, and the `consistencyScore` of
`analyzePatterns` is a defined value in `[0, 1]` for every NON-EMPTY entry
list with ratings in `[1, 10]`; on the empty list it is `NaN`. -/
theorem c3_consistency_in_unit_interval (msqrt : ℚ → ℚ)
    (hsq : ∀ q, 0 ≤ q → 0 ≤ msqrt q) (entries : List SleepEntry)
    (hr : ∀ e ∈ entries, 1 ≤ e.rating ∧ e.rating ≤ 10) :
    (0 ≤ (calculateStatistics msqrt entries).consistency ∧
      (calculateStatistics msqrt entries).consistency ≤ 1) ∧
    (entries ≠ [] → ∃ c, (analyzePatterns msqrt entries).consistencyScore = some c ∧
      0 ≤ c ∧ c ≤ 1) := by
  constructor
  · by_cases hne : entries.length = 0
    · unfold calculateStatistics
      rw [if_pos hne]
      norm_num
    · unfold calculateStatistics
      rw [if_neg hne]
      dsimp only
      have hlen : (0 : ℚ) < (entries.length : ℚ) := by
        have : 0 < entries.length := Nat.pos_of_ne_zero hne
        exact_mod_cast this
      have hv : 0 ≤ ((entries.map (fun e => e.rating)).map
          (fun r => (r - (entries.map (fun e => e.rating)).sum / (entries.length : ℚ)) ^ 2)).sum /
          (entries.length : ℚ) := by
        apply div_nonneg _ (le_of_lt hlen)
        exact sq_list_sum_nonneg _ _
      have := consistency_expr_bounds msqrt hsq hv
      simpa using this
  · intro hne
    rcases List.exists_mem_of_ne_nil entries hne with ⟨e, he⟩
    set d := dayName e.date with hd
    have hdmem : d ∈ dayNames := dayName_mem e.date
    have hcnt : 0 < dayCount entries d := dayCount_pos_of_mem he
    have hval : 0 < patternVal entries d := by
      unfold patternVal
      rw [if_pos hcnt]
      have h1 : 1 ≤ dayAvg entries d := one_le_dayAvg hcnt (fun x hx => (hr x hx).1)
      have := one_le_round2 h1
      linarith
    have hvmem : patternVal entries d ∈
        ((dayNames.map (fun d' => (d', patternVal entries d'))).map (fun p => p.2)).filter
          (fun v => decide (0 < v)) := by
      rw [List.mem_filter]
      constructor
      · rw [List.map_map]
        exact List.mem_map.2 ⟨d, hdmem, rfl⟩
      · simpa using hval
    have hvne : ((dayNames.map (fun d' => (d', patternVal entries d'))).map (fun p => p.2)).filter
        (fun v => decide (0 < v)) ≠ [] := by
      intro h
      rw [h] at hvmem
      simp at hvmem
    unfold analyzePatterns
    dsimp only
    rw [if_neg (by simpa [List.length_eq_zero] using hvne)]
    refine ⟨_, rfl, ?_⟩
    apply consistency_expr_bounds msqrt hsq
    apply div_nonneg (sq_list_sum_nonneg _ _)
    positivity

/-- C3 witness: the sqrt model `fun _ => 0` and the one-entry list
`[⟨0, 7⟩]`. -/
theorem c3_consistency_in_unit_interval_witness :
    (∀ q : ℚ, 0 ≤ q → 0 ≤ (0 : ℚ)) ∧
    (∀ e ∈ [(⟨0, 7⟩ : SleepEntry)], 1 ≤ e.rating ∧ e.rating ≤ 10) ∧
    ((0 ≤ (calculateStatistics (fun _ => 0) [⟨0, 7⟩]).consistency ∧
        (calculateStatistics (fun _ => 0) [⟨0, 7⟩]).consistency ≤ 1) ∧
      ([(⟨0, 7⟩ : SleepEntry)] ≠ [] → ∃ c,
        (analyzePatterns (fun _ => 0) [⟨0, 7⟩]).consistencyScore = some c ∧ 0 ≤ c ∧ c ≤ 1)) :=
  ⟨fun _ _ => le_refl 0, by decide,
    c3_consistency_in_unit_interval (fun _ => 0) (fun _ _ => le_refl 0) [⟨0, 7⟩] (by decide)⟩

end ClaimC3

section ClaimC4

/-- C4 counterexample: on the single-entry list with rating 10 on a Monday,
the strict `avg < worstAvg` update (with `worstAvg` initialised to 10)
never fires, so `worstDay` is `'N/A'` and in particular is not the
lowest-average weekday. -/
theorem c4_worstDay_counterexample :
    (analyzePatterns (fun _ => 0) [⟨4, 10⟩]).worstDay = "N/A" ∧
    ¬ WorstDaySpec [⟨4, 10⟩] (analyzePatterns (fun _ => 0) [⟨4, 10⟩]).worstDay := by
  have h10 : ∀ d ∈ dayNames, 0 < dayCount [(⟨4, 10⟩ : SleepEntry)] d →
      dayAvg [(⟨4, 10⟩ : SleepEntry)] d = 10 := by
    intro d _ hc
    by_cases hh : dayName ((4 : ℤ)) = d
    · unfold dayAvg daySum dayCount dayEntries
      simp only [List.filter_cons, List.filter_nil]
      rw [if_pos (by simpa using hh)]
      norm_num
    · exfalso
      unfold dayCount dayEntries at hc
      simp only [List.filter_cons, List.filter_nil] at hc
      rw [if_neg (by simpa using hh)] at hc
      simp at hc
  have hfold : bwFold [(⟨4, 10⟩ : SleepEntry)] =
      dayNames.foldl (bwStep [(⟨4, 10⟩ : SleepEntry)]) ⟨"", "", 0, 10⟩ := rfl
  obtain ⟨_, hworst⟩ := bwFold_inv [(⟨4, 10⟩ : SleepEntry)] dayNames (by decide)
  rw [← hfold] at hworst
  have hna : (analyzePatterns (fun _ => 0) [⟨4, 10⟩]).worstDay = "N/A" := by
    rcases hworst with ⟨h0, _, _⟩ | ⟨hmemW, hcntW, heqW, hlt10, _, _⟩
    · rw [analyzePatterns_worstDay_eq, if_pos h0]
    · exfalso
      have := h10 _ hmemW hcntW
      rw [← heqW] at this
      linarith
  refine ⟨hna, fun hW => ?_⟩
  have hmem := hW.1
  rw [hna] at hmem
  exact (by decide : ("N/A" : String) ∉ dayNames) hmem

/-- C4 amended: on every non-empty list with ratings in `[1, 10]`, `bestDay`
is exactly as claimed (first weekday with the strictly-highest average);
`worstDay` is as claimed whenever some weekday with entries has average
below 10, but when every weekday with entries has average exactly 10 (all
ratings 10) the selection never fires and `worstDay` is `'N/A'`. -/
theorem c4_best_worst_days (msqrt : ℚ → ℚ) (entries : List SleepEntry)
    (hne : entries ≠ []) (hr : ∀ e ∈ entries, 1 ≤ e.rating ∧ e.rating ≤ 10) :
    BestDaySpec entries (analyzePatterns msqrt entries).bestDay ∧
    ((∃ d ∈ dayNames, 0 < dayCount entries d ∧ dayAvg entries d < 10) →
      WorstDaySpec entries (analyzePatterns msqrt entries).worstDay) ∧
    ((∀ d ∈ dayNames, 0 < dayCount entries d → dayAvg entries d = 10) →
      (analyzePatterns msqrt entries).worstDay = "N/A") := by
  have hfold : bwFold entries = dayNames.foldl (bwStep entries) ⟨"", "", 0, 10⟩ := rfl
  obtain ⟨hbest, hworst⟩ := bwFold_inv entries dayNames (by decide)
  rw [← hfold] at hbest hworst
  rcases List.exists_mem_of_ne_nil entries hne with ⟨e, he⟩
  have hdmem := dayName_mem e.date
  have hcnt : 0 < dayCount entries (dayName e.date) := dayCount_pos_of_mem he
  have havg1 : 1 ≤ dayAvg entries (dayName e.date) :=
    one_le_dayAvg hcnt (fun x hx => (hr x hx).1)
  refine ⟨?_, ?_, ?_⟩
  · rcases hbest with ⟨_, _, hall⟩ | ⟨hmem, hcntB, heq, hall, htw⟩
    · have := hall _ hdmem hcnt
      linarith
    · have hnae : (bwFold entries).bestDay ≠ "" := by
        intro h0
        rw [h0] at hmem
        exact empty_not_mem_dayNames hmem
      rw [analyzePatterns_bestDay_eq, if_neg hnae]
      refine ⟨hmem, hcntB, ?_, ?_⟩
      · intro d' hd' hc'
        have := hall d' hd' hc'
        linarith [heq.ge]
      · intro d' hd' hc'
        have := htw d' hd' hc'
        linarith [heq.ge]
  · intro hex
    rcases hworst with ⟨_, _, hall⟩ | ⟨hmemW, hcntW, heqW, h10, hallW, htwW⟩
    · rcases hex with ⟨d0, hd0, hc0, hlt0⟩
      have := hall d0 hd0 hc0
      linarith
    · have hnae : (bwFold entries).worstDay ≠ "" := by
        intro h0
        rw [h0] at hmemW
        exact empty_not_mem_dayNames hmemW
      rw [analyzePatterns_worstDay_eq, if_neg hnae]
      refine ⟨hmemW, hcntW, ?_, ?_⟩
      · intro d' hd' hc'
        have := hallW d' hd' hc'
        linarith [heqW.ge]
      · intro d' hd' hc'
        have := htwW d' hd' hc'
        linarith [heqW.ge]
  · intro h10
    rcases hworst with ⟨h0, _, _⟩ | ⟨hmemW, hcntW, heqW, hlt10, _, _⟩
    · rw [analyzePatterns_worstDay_eq, if_pos h0]
    · exfalso
      have := h10 _ hmemW hcntW
      rw [← heqW] at this
      linarith

/-- C4 witness: the one-entry list `[⟨4, 7⟩]` (a Monday rated 7). -/
theorem c4_best_worst_days_witness :
    (([(⟨4, 7⟩ : SleepEntry)] : List SleepEntry) ≠ [] ∧
      ∀ e ∈ [(⟨4, 7⟩ : SleepEntry)], 1 ≤ e.rating ∧ e.rating ≤ 10) ∧
    (BestDaySpec [⟨4, 7⟩] (analyzePatterns (fun _ => 0) [⟨4, 7⟩]).bestDay ∧
      ((∃ d ∈ dayNames, 0 < dayCount [⟨4, 7⟩] d ∧ dayAvg [⟨4, 7⟩] d < 10) →
        WorstDaySpec [⟨4, 7⟩] (analyzePatterns (fun _ => 0) [⟨4, 7⟩]).worstDay) ∧
      ((∀ d ∈ dayNames, 0 < dayCount [⟨4, 7⟩] d → dayAvg [⟨4, 7⟩] d = 10) →
        (analyzePatterns (fun _ => 0) [⟨4, 7⟩]).worstDay = "N/A")) :=
  ⟨⟨by decide, by decide⟩,
    c4_best_worst_days (fun _ => 0) [⟨4, 7⟩] (by decide) (by decide)⟩

end ClaimC4

section ClaimC6

/-- C6: with at least 3 entries, pairwise distinct dates and integer
ratings, the coarse trend classifier returns `improving` when the ratings
strictly increase in ascending date order (OLS slope at least 1 > 0.1),
`declining` when they strictly decrease (slope at most -1 < -0.1), and
`stable` when all ratings are equal (slope 0). -/
theorem c6_trend_classes (entries : List SleepEntry) (h3 : 3 ≤ entries.length)
    (_hdist : entries.Pairwise (fun a b => a.date ≠ b.date))
    (hint : ∀ e ∈ entries, e.rating.den = 1) :
    ((((sortAscByDate entries).map (fun e => e.rating)).Chain' (· < ·)) →
        calculateTrend entries = .improving) ∧
    ((((sortAscByDate entries).map (fun e => e.rating)).Chain' (· > ·)) →
        calculateTrend entries = .declining) ∧
    ((∀ a ∈ entries, ∀ b ∈ entries, a.rating = b.rating) →
        calculateTrend entries = .stable) := by
  have hlen : ((sortAscByDate entries).map (fun e => e.rating)).length = entries.length := by
    simp [length_sortAscByDate]
  have hden : ∀ q ∈ (sortAscByDate entries).map (fun e => e.rating), q.den = 1 := by
    intro q hq
    rcases List.mem_map.1 hq with ⟨e, he, rfl⟩
    exact hint e (mem_sortAscByDate.1 he)
  have hn3 : ¬ (entries.length < 3) := by omega
  unfold calculateTrend
  rw [if_neg hn3]
  dsimp only
  refine ⟨?_, ?_, ?_⟩
  · intro hchain
    have h1 : 1 ≤ regressionSlope ((sortAscByDate entries).map (fun e => e.rating)) :=
      slope_ge_one _ (by omega) hchain hden
    rw [if_pos (by linarith :
      (1:ℚ)/10 < regressionSlope ((sortAscByDate entries).map (fun e => e.rating)))]
  · intro hchain
    have h1 : regressionSlope ((sortAscByDate entries).map (fun e => e.rating)) ≤ -1 :=
      slope_le_neg_one _ (by omega) hchain hden
    rw [if_neg (by linarith :
        ¬ ((1:ℚ)/10 < regressionSlope ((sortAscByDate entries).map (fun e => e.rating)))),
      if_pos (by linarith :
        regressionSlope ((sortAscByDate entries).map (fun e => e.rating)) < -(1/10))]
  · intro hconst
    have h0 : regressionSlope ((sortAscByDate entries).map (fun e => e.rating)) = 0 := by
      apply slope_eq_zero_of_const
      intro i hi j hj
      rcases ys_getD_mem entries i (Finset.mem_range.1 hi) with ⟨a, ha, hya⟩
      rcases ys_getD_mem entries j (Finset.mem_range.1 hj) with ⟨b, hb, hyb⟩
      rw [hya, hyb]
      exact hconst a ha b hb
    rw [if_neg (by rw [h0]; norm_num), if_neg (by rw [h0]; norm_num)]

/-- C6 witness: the three-entry list with ratings 3, 4, 5 on consecutive
dates (increasing case). -/
theorem c6_trend_classes_witness :
    (3 ≤ risingEntries.length ∧
      risingEntries.Pairwise (fun a b => a.date ≠ b.date) ∧
      ∀ e ∈ risingEntries, e.rating.den = 1) ∧
    (((sortAscByDate risingEntries).map (fun e => e.rating)).Chain' (· < ·) ∧
      calculateTrend risingEntries = .improving) := by
  have hchain : ((sortAscByDate risingEntries).map (fun e => e.rating)).Chain' (· < ·) := by
    have hs : (sortAscByDate risingEntries).map (fun e => e.rating) = [3, 4, 5] := by decide
    rw [hs]
    norm_num [List.chain'_cons]
  exact ⟨⟨by decide, by decide, by decide⟩, hchain,
    (c6_trend_classes risingEntries (by decide) (by decide) (by decide)).1 hchain⟩

end ClaimC6

end SleepAnalytics
